import Mathlib

/-!
Verification development for the change-detection / build-triggering core of
the buildbot repository (xrg/buildbot).

Part 1 embeds the scheduler family of `master/buildbot/schedulers/basic.py`:
`Scheduler.decide_and_remove_changes`, `Scheduler._add_build_and_remove_changes`,
`Scheduler.getPendingBuildTimes`, `AnyBranchScheduler._process_changes` and
`Dependent._run`.  Database side effects (buildset creation, change
retirement) are made explicit as trace values; wall-clock times and commit
timestamps are modelled as integers.

Part 2 embeds the git poller of `master/buildbot/changes/gitmultipoller.py`:
the three-sentinel `git log` output parser of `_parse_log_results`, the
emission loop, and the per-branch range/backfill bookkeeping of
`_process_changes`.
-/

namespace Buildbot

/-- A change record, with the fields the scheduler code reads: the
store-assigned `number` (`c.number`), the commit timestamp `when` (`c.when`)
and the branch (`c.branch`, used by `AnyBranchScheduler`). -/
structure Change where
  number : Nat
  when : Int
  branch : Option String
deriving DecidableEq, Repr

/-- The sort key used by `sorted(..., key=lambda c: c.number)`. -/
def byNumber (a b : Change) : Prop := a.number ≤ b.number

instance : DecidableRel byNumber := fun a b => inferInstanceAs (Decidable (a.number ≤ b.number))

instance : IsTotal Change byNumber := ⟨fun a b => Nat.le_total a.number b.number⟩

instance : IsTrans Change byNumber := ⟨fun _ _ _ h h2 => Nat.le_trans h h2⟩

/-- Python's `sorted(cs, key=lambda c: c.number)` (a stable sort by change
number). -/
def sortedByNumber (cs : List Change) : List Change := List.insertionSort byNumber cs

/-- The database side effects of one scheduler evaluation: the list of
created buildsets (each given by the change list of its SourceStamp) and the
list of change ids passed to `scheduler_retire_changes`. -/
structure BuildTrace where
  buildsets : List (List Change)
  retired : List Nat
deriving DecidableEq, Repr

/-- `Scheduler._add_build_and_remove_changes(t, important, unimportant)`:
sort the union by change number; with no `treeStableTimer` create one
buildset per important change (in sorted order), otherwise one buildset for
the whole pile; finally retire every change of the union. -/
def add_build_and_remove_changes (treeStableTimer : Option Int)
    (important unimportant : List Change) : BuildTrace :=
  let all_changes := sortedByNumber (important ++ unimportant)
  match treeStableTimer with
  | none =>
      { buildsets := (sortedByNumber important).map (fun c => [c]),
        retired := all_changes.map (fun c => c.number) }
  | some _ =>
      { buildsets := [all_changes],
        retired := all_changes.map (fun c => c.number) }

/-- Python's `max([c.when for c in cs])` (meaningful only for nonempty `cs`,
exactly as at its call site). -/
def maxWhen : List Change → Int
  | [] => 0
  | c :: cs => cs.foldl (fun a d => max a d.when) c.when

/-- Result of one `Scheduler.decide_and_remove_changes` evaluation: the value
of `self.stableAt` afterwards, the returned wakeup time, and the database
trace. -/
structure DecideResult where
  stableAt : Option Int
  wakeup : Option Int
  trace : BuildTrace
deriving DecidableEq, Repr

/-- `Scheduler.decide_and_remove_changes(t, important, unimportant)` with the
mutable `self.stableAt` passed in as `stableAt0` and `time.time()` as `now`.
If there is no important change, nothing happens.  With a `treeStableTimer`,
`stableAt` becomes `most_recent + treeStableTimer`; if that lies in the
future the call returns `stableAt + 1.0` and does nothing else; otherwise
(and always when no timer is set) `stableAt` is cleared and
`_add_build_and_remove_changes` runs. -/
def decide_and_remove_changes (treeStableTimer : Option Int) (now : Int)
    (stableAt0 : Option Int) (important unimportant : List Change) : DecideResult :=
  if important = [] then
    { stableAt := stableAt0, wakeup := none, trace := ⟨[], []⟩ }
  else
    let all_changes := important ++ unimportant
    let most_recent := maxWhen all_changes
    match treeStableTimer with
    | some tst =>
        let sa := most_recent + tst
        if now < sa then
          { stableAt := some sa, wakeup := some (sa + 1), trace := ⟨[], []⟩ }
        else
          { stableAt := none, wakeup := none,
            trace := add_build_and_remove_changes (some tst) important unimportant }
    | none =>
        { stableAt := none, wakeup := none,
          trace := add_build_and_remove_changes none important unimportant }

/-- `Scheduler.getPendingBuildTimes`: `[self.stableAt]` when `self.stableAt`
is truthy (not `None` and not the falsy time `0`) and `> util.now()`, else
`[]`. -/
def getPendingBuildTimes (stableAt : Option Int) (now : Int) : List Int :=
  match stableAt with
  | some t => if t ≠ 0 ∧ now < t then [t] else []
  | none => []

/-- Key-insertion step of the `defaultdict` grouping in
`AnyBranchScheduler._process_changes`: a new branch key is appended on first
sight. -/
def insertKey (ks : List (Option String)) (k : Option String) : List (Option String) :=
  if k ∈ ks then ks else ks ++ [k]

/-- Result of one `AnyBranchScheduler._process_changes` evaluation. -/
structure AnyBranchResult where
  stableAt : Option Int
  wakeup : Option Int
  traces : List BuildTrace
deriving DecidableEq, Repr

/-- `AnyBranchScheduler._process_changes`: group the classified changes by
branch, run `decide_and_remove_changes` once per branch — each call
overwriting the single shared `self.stableAt` — and return the minimum of
the reported delays, if any. -/
def anyBranch_process_changes (treeStableTimer : Option Int) (now : Int)
    (stableAt0 : Option Int) (important unimportant : List Change) : AnyBranchResult :=
  let keys := (important ++ unimportant).map (fun c => c.branch) |>.foldl insertKey []
  let step := fun (acc : Option Int × List Int × List BuildTrace) (b : Option String) =>
    let r := decide_and_remove_changes treeStableTimer now acc.1
               (important.filter (fun c => decide (c.branch = b)))
               (unimportant.filter (fun c => decide (c.branch = b)))
    (r.stableAt, acc.2.1 ++ r.wakeup.toList, acc.2.2 ++ [r.trace])
  let res := keys.foldl step (stableAt0, [], [])
  { stableAt := res.1, wakeup := res.2.1.min?, traces := res.2.2 }

/-- The upstream build results the `Dependent` scheduler inspects
(`buildbot.status.builder`: `SUCCESS, WARNINGS, FAILURE, SKIPPED, EXCEPTION,
RETRY`). -/
inductive BuildResult
  | success
  | warnings
  | failure
  | skipped
  | exception
  | retry
deriving DecidableEq, Repr

/-- One row of `scheduler_get_subscribed_buildsets`: `(bsid, ssid, complete,
results)`. -/
structure BuildsetSubscription where
  bsid : Nat
  ssid : Nat
  complete : Bool
  results : BuildResult
deriving DecidableEq, Repr

/-- The database side effects of one `Dependent._run` evaluation: the source
stamp ids for which `create_buildset` was called, and the buildset ids passed
to `scheduler_unsubscribe_buildset`. -/
structure DependentTrace where
  created : List Nat
  unsubscribed : List Nat
deriving DecidableEq, Repr

/-- `Dependent._run`: for each subscribed buildset that is complete, create a
new buildset against the same SourceStamp when the result is `SUCCESS` or
`WARNINGS`, then unconditionally unsubscribe; incomplete subscriptions are
skipped. -/
def Dependent_run (subs : List BuildsetSubscription) : DependentTrace :=
  subs.foldl
    (fun acc s =>
      if s.complete then
        let acc1 :=
          if s.results = BuildResult.success ∨ s.results = BuildResult.warnings then
            { acc with created := acc.created ++ [s.ssid] }
          else acc
        { acc1 with unsubscribed := acc1.unsubscribed ++ [s.bsid] }
      else acc)
    ⟨[], []⟩

/-! Part 2: the git multi-branch poller (`gitmultipoller.py`).

A line of `git log` output (Python `str`) is modelled as a list of
characters; `results.splitlines()` is modelled by taking the input as a list
of such lines. -/

/-- One line of git output. -/
abbrev Line := List Char

/-- `GitMultiPoller.log_separator_commit`. -/
def log_separator_commit : Line := "----- HarZZypDCzU -----".data

/-- `GitMultiPoller.log_separator_files`. -/
def log_separator_files : Line := "----- ZCZbb85R0B0 -----".data

/-- `GitMultiPoller.log_separator_fields`. -/
def log_separator_fields : Line := "----- XqcaaUtPdAo -----".data

/-- The recognized keys of `GitMultiPoller.log_fields`. -/
inductive LogField
  | hash
  | subject
  | body
  | name
  | timestamp
deriving DecidableEq, Repr

/-- Lookup of a parsed field name among the `log_fields` keys
(`fld in self.log_fields`). -/
def fieldOfName (s : Line) : Option LogField :=
  if s = "hash".data then some LogField.hash
  else if s = "subject".data then some LogField.subject
  else if s = "body".data then some LogField.body
  else if s = "name".data then some LogField.name
  else if s = "timestamp".data then some LogField.timestamp
  else none

/-- Whether the `git log --format` specifier of the field starts with `+`
(`log_fields`: hash `%H`, subject `+%s`, body `+%b`, name `%aE`, timestamp
`%ct`): the multi-line fields. -/
def fieldIsMultiline : LogField → Bool
  | LogField.subject => true
  | LogField.body => true
  | _ => false

/-- The `revDict` dictionary built by `_parse_log_results`: each recognized
key is either absent or mapped to text, and `files` is either absent or a
list of paths. -/
structure RevDict where
  hash? : Option Line := none
  subject? : Option Line := none
  body? : Option Line := none
  name? : Option Line := none
  timestamp? : Option Line := none
  files? : Option (List Line) := none
deriving DecidableEq, Repr

/-- Dictionary read `revDict[fld]` for the simple keys. -/
def RevDict.get : RevDict → LogField → Option Line
  | rd, LogField.hash => rd.hash?
  | rd, LogField.subject => rd.subject?
  | rd, LogField.body => rd.body?
  | rd, LogField.name => rd.name?
  | rd, LogField.timestamp => rd.timestamp?

/-- Dictionary write `revDict[fld] = v` for the simple keys. -/
def RevDict.set : RevDict → LogField → Line → RevDict
  | rd, LogField.hash, v => { rd with hash? := some v }
  | rd, LogField.subject, v => { rd with subject? := some v }
  | rd, LogField.body, v => { rd with body? := some v }
  | rd, LogField.name, v => { rd with name? := some v }
  | rd, LogField.timestamp, v => { rd with timestamp? := some v }

/-- Dictionary append `revDict[fld] += v` (the key is present whenever the
code appends, having been created when the multi-line field was opened). -/
def RevDict.appendTo (rd : RevDict) (f : LogField) (v : Line) : RevDict :=
  rd.set f ((rd.get f).getD [] ++ v)

/-- Python dict truthiness of `revDict` (`if revDict:`): false exactly when
no key has been assigned. -/
def RevDict.isEmpty (rd : RevDict) : Bool :=
  rd.hash?.isNone && rd.subject?.isNone && rd.body?.isNone && rd.name?.isNone
    && rd.timestamp?.isNone && rd.files?.isNone

/-- Failures raised by the poller code: the `ValueError` and the `assert`
statements of `_parse_log_results`, the `KeyError` sites, and the `TypeError`
of an `in` / item-assignment on a `None` props. -/
inductive PollerError
  | unknownLineOutsideCommit (l : Line)
  | assertEmptyFieldLine
  | noColon (l : Line)
  | invalidField (f : Line)
  | plusFieldMismatch
  | plusFieldContent
  | missingSpace
  | missingFilesKey
  | missingRevField
  | propsTypeError
deriving DecidableEq, Repr

/-- Python `rline.split(':', 1)` when it yields two parts (a pair around the
first colon); `none` when the line has no colon (so tuple unpacking would
raise). -/
def splitOnce (c : Char) : Line → Option (Line × Line)
  | [] => none
  | x :: xs =>
      if x = c then some ([], xs)
      else
        match splitOnce c xs with
        | some (a, b) => some (x :: a, b)
        | none => none

/-- Python `str.strip()`: drop whitespace from both ends. -/
def stripLine (l : Line) : Line :=
  ((l.dropWhile Char.isWhitespace).reverse.dropWhile Char.isWhitespace).reverse

/-- The local state of the `_parse_log_results` line loop: the accumulated
`revList`, the commit record being parsed (`revDict`, `None` before the first
commit separator), the open multi-line field (`bodyField`) and the `inFiles`
flag. -/
structure PState where
  revList : List RevDict
  revDict : Option RevDict
  bodyField : Option LogField
  inFiles : Bool
deriving DecidableEq, Repr

/-- Flushing the current record into `revList` (`if revDict:
revList.append(revDict)`) — an empty dict is falsy and is dropped. -/
def flushRev : Option RevDict → List RevDict
  | some rd => if rd.isEmpty then [] else [rd]
  | none => []

/-- One iteration of the `for rline in results.splitlines()` loop of
`GitMultiPoller._parse_log_results`, with the raised exceptions made
explicit. -/
def parseLogLine (st : PState) (rline : Line) : Except PollerError PState :=
  if rline = log_separator_commit then
    Except.ok { revList := st.revList ++ flushRev st.revDict, revDict := some {},
                bodyField := none, inFiles := false }
  else
    match st.revDict with
    | none => Except.error (PollerError.unknownLineOutsideCommit rline)
    | some rd =>
        if rline = log_separator_files then
          Except.ok { st with bodyField := none, inFiles := true,
                              revDict := some { rd with files? := some [] } }
        else
          match st.bodyField with
          | some bf =>
              if rline = log_separator_fields then
                Except.ok { st with bodyField := none }
              else
                Except.ok { st with revDict := some (rd.appendTo bf (rline ++ ['\n'])) }
          | none =>
              if st.inFiles then
                if rline ≠ [] then
                  match rd.files? with
                  | some fs =>
                      let rd' := { rd with files? := some (fs ++ [stripLine rline]) }
                      Except.ok { st with revDict := some rd' }
                  | none => Except.error PollerError.missingFilesKey
                else
                  Except.ok st
              else
                if rline = [] then Except.error PollerError.assertEmptyFieldLine
                else
                  match splitOnce ':' rline with
                  | none => Except.error (PollerError.noColon rline)
                  | some (fld, val) =>
                      match fieldOfName fld with
                      | none => Except.error (PollerError.invalidField fld)
                      | some f =>
                          if val.head? = some '+' then
                            if fieldIsMultiline f = false then
                              Except.error PollerError.plusFieldMismatch
                            else if val ≠ ['+'] then
                              Except.error PollerError.plusFieldContent
                            else
                              Except.ok { st with revDict := some (rd.set f (val.drop 1)),
                                                  bodyField := some f }
                          else
                            match val with
                            | [] => Except.error PollerError.missingSpace
                            | v0 :: vrest =>
                                if v0 = ' ' then
                                  Except.ok { st with revDict := some (rd.set f vrest) }
                                else
                                  Except.error PollerError.missingSpace

/-- The line loop of `_parse_log_results`, stopping at the first raised
exception. -/
def runLines : PState → List Line → Except PollerError PState
  | st, [] => Except.ok st
  | st, l :: ls =>
      match parseLogLine st l with
      | Except.ok st' => runLines st' ls
      | Except.error e => Except.error e

/-- The parsing phase of `GitMultiPoller._parse_log_results`: run the line
loop from the initial state and flush the trailing record. -/
def parseLogResults (lines : List Line) : Except PollerError (List RevDict) :=
  match runLines ⟨[], none, none, false⟩ lines with
  | Except.ok st => Except.ok (st.revList ++ flushRev st.revDict)
  | Except.error e => Except.error e

/-- A change record as submitted by `GitMultiPoller._doAddChange` via
`master.addChange` (the per-poller constants `category`, `project` and
`repository` are omitted; the commit timestamp is kept as the raw text that
the code feeds to `epoch2datetime(float(...))`). -/
structure PollerChange where
  author : Line
  revision : Line
  files : List Line
  comments : Line
  when_timestamp : Line
  branch : Line
  skip_build : Bool
deriving DecidableEq, Repr

/-- The `props` dict of a branch spec, carrying the optional `last_head`
key. -/
structure BranchProps where
  last_head : Option Line := none
deriving DecidableEq, Repr

/-- A normalized `branchSpecs` entry `(branch, localBranch, props)`:
`branch = none` models the falsy branch of a local-only spec, `props = none`
models a `None` third element. -/
structure BranchSpec where
  branch : Option Line
  localBranch : Line
  props : Option BranchProps
deriving DecidableEq, Repr

/-- Whether every key `_doAddChange` reads is present in the record. -/
def CompleteRev (rd : RevDict) : Prop :=
  rd.hash?.isSome ∧ rd.subject?.isSome ∧ rd.body?.isSome ∧ rd.name?.isSome
    ∧ rd.timestamp?.isSome ∧ rd.files?.isSome

instance : DecidablePred CompleteRev := fun rd =>
  inferInstanceAs (Decidable (_ ∧ _ ∧ _ ∧ _ ∧ _ ∧ _))

/-- `GitMultiPoller._doAddChange`: build the submitted change from
`revDict`; a missing key is a `KeyError`. -/
def doAddChange (branch : Line) (rd : RevDict) (historic : Bool) :
    Except PollerError PollerChange :=
  match rd.subject?, rd.body?, rd.name?, rd.hash?, rd.timestamp?, rd.files? with
  | some s, some b, some n, some h, some t, some fs =>
      Except.ok { author := n, revision := h, files := fs,
                  comments := s ++ "\n\n".data ++ b,
                  when_timestamp := t, branch := branch, skip_build := historic }
  | _, _, _, _, _, _ => Except.error PollerError.missingRevField

/-- Total form of `_doAddChange` on a complete record. -/
def changeOfRevDict (branch : Line) (historic : Bool) (rd : RevDict) : PollerChange :=
  { author := rd.name?.getD [], revision := rd.hash?.getD [],
    files := rd.files?.getD [],
    comments := rd.subject?.getD [] ++ "\n\n".data ++ rd.body?.getD [],
    when_timestamp := rd.timestamp?.getD [], branch := branch,
    skip_build := historic }

/-- The emission loop of `_parse_log_results`: submit each record of the
(already reversed) list, and for a local-only branch advance
`props['last_head']` to the submitted hash after each submission
(`TypeError` if `props` is `None` there). -/
def emitRevs (branch : Option Line) (localBranch : Line) (historic : Bool) :
    List RevDict → Option BranchProps → List PollerChange →
    Except PollerError (List PollerChange × Option BranchProps)
  | [], props, acc => Except.ok (acc, props)
  | rd :: rest, props, acc =>
      match doAddChange (branch.getD localBranch) rd historic with
      | Except.error e => Except.error e
      | Except.ok chg =>
          match branch, rd.hash? with
          | none, some h =>
              match props with
              | some _ => emitRevs branch localBranch historic rest
                            (some { last_head := some h }) (acc ++ [chg])
              | none => Except.error PollerError.propsTypeError
          | _, _ => emitRevs branch localBranch historic rest props (acc ++ [chg])

/-- The final `props` after the emission loop, as a function of the emitted
record list (meaningful when `branch.isSome ∨ props.isSome`, i.e. when no
`TypeError` occurs): a local-only branch overwrites `last_head` with each
record's hash in turn. -/
def updatedProps (branch : Option Line) (props : Option BranchProps)
    (l : List RevDict) : Option BranchProps :=
  match branch with
  | some _ => props
  | none =>
      l.foldl
        (fun p rd =>
          match rd.hash? with
          | some h => p.map (fun _ => { last_head := some h })
          | none => p)
        props

/-- What one `_parse_log_results` call contributes: the submitted changes in
order, the (possibly updated) props, and the `changeCount` increment. -/
structure BranchParseResult where
  changes : List PollerChange
  props : Option BranchProps
  countAdd : Nat
deriving DecidableEq, Repr

/-- `GitMultiPoller._parse_log_results`: parse the log output (given as the
`splitlines()` of the git output), reverse to oldest-first, submit each
record and count them. -/
def parse_log_results (lines : List Line) (branch : Option Line)
    (localBranch : Line) (props : Option BranchProps) (historic : Bool) :
    Except PollerError BranchParseResult :=
  match parseLogResults lines with
  | Except.error e => Except.error e
  | Except.ok revList =>
      if revList = [] then Except.ok ⟨[], props, 0⟩
      else
        match emitRevs branch localBranch historic revList.reverse props [] with
        | Except.error e => Except.error e
        | Except.ok (chs, props') => Except.ok ⟨chs, props', revList.length⟩

/-- The commit range handed to `git log` for one branch: `base..tip`, a bare
tip (entire history), or no revision argument at all (the `log.err` fall
through when a local-only spec has no `last_head`). -/
inductive LogRange
  | fromTo (base tip : Line)
  | whole (tip : Line)
  | unspecified
deriving DecidableEq, Repr

/-- The remote-tracking name `'%s/%s' % (remoteName, branch)`. -/
def remoteRef (remoteName b : Line) : Line := remoteName ++ '/' :: b

/-- What the range-computation step of `_process_changes` produces for one
branch: the requested range, the updated known-tips list and
pending-backfill set, and whether historic mode was taken. -/
structure RangeStepResult where
  range : LogRange
  currentBranches : List Line
  allHistory : List Line
  historic : Bool
deriving DecidableEq, Repr

/-- The tip a branch spec is scanned towards: the remote-tracking ref for a
normal spec, the local branch itself for a local-only spec. -/
def branchTip (remoteName : Line) (spec : BranchSpec) : Line :=
  match spec.branch with
  | some b => remoteRef remoteName b
  | none => spec.localBranch

/-- The per-branch range computation of `GitMultiPoller._process_changes`
(gitmultipoller.py lines 236-277).  `mergeBase cb` is the stdout of
`git merge-base --octopus cb` (the call is only made when `cb` is nonempty;
its raw output is truthiness-tested, then stripped).  In historic mode the
branch's tip is appended to `currentBranches` and the branch is removed from
`allHistory` as part of this step, before any log output is parsed or any
commit emitted. -/
def computeRange (remoteName : Line) (mergeBase : List Line → Line)
    (allHistory currentBranches : List Line) (spec : BranchSpec) : RangeStepResult :=
  if allHistory ≠ [] ∧ spec.localBranch ∈ allHistory then
    let start_commit : Line :=
      if currentBranches ≠ [] ∧ mergeBase currentBranches ≠ [] then
        stripLine (mergeBase currentBranches)
      else []
    let tip : Line := branchTip remoteName spec
    let range : LogRange :=
      if start_commit ≠ [] then LogRange.fromTo start_commit tip
      else LogRange.whole tip
    ⟨range, currentBranches ++ [tip], allHistory.erase spec.localBranch, true⟩
  else
    match spec.branch with
    | some b =>
        ⟨LogRange.fromTo spec.localBranch (remoteRef remoteName b),
         currentBranches, allHistory, false⟩
    | none =>
        match spec.props with
        | some p =>
            match p.last_head with
            | some h => ⟨LogRange.fromTo h spec.localBranch,
                         currentBranches, allHistory, false⟩
            | none => ⟨LogRange.unspecified, currentBranches, allHistory, false⟩
        | none => ⟨LogRange.unspecified, currentBranches, allHistory, false⟩

/-- The `currentBranches` initialization at the top of `_process_changes`:
when backfill is pending, collect the tip of every spec already fully known
(`'last_head' in props` on a `None` props is a `TypeError`). -/
def initCurrentBranches (remoteName : Line) (allHistory : List Line) :
    List BranchSpec → Except PollerError (List Line)
  | [] => Except.ok []
  | spec :: rest =>
      match initCurrentBranchesStep remoteName allHistory spec with
      | Except.error e => Except.error e
      | Except.ok contrib =>
          match initCurrentBranches remoteName allHistory rest with
          | Except.error e => Except.error e
          | Except.ok cb => Except.ok (contrib ++ cb)
where
  initCurrentBranchesStep (remoteName : Line) (allHistory : List Line)
      (spec : BranchSpec) : Except PollerError (List Line) :=
    if spec.localBranch ∈ allHistory then Except.ok []
    else
      match spec.branch with
      | some b => Except.ok [remoteRef remoteName b]
      | none =>
          match spec.props with
          | some p =>
              match p.last_head with
              | some h => Except.ok [h]
              | none => Except.ok []
          | none => Except.error PollerError.propsTypeError

/-- The in-flight state of one poll cycle: the known-tips list, the
pending-backfill set, `changeCount`, all submitted changes in order, the
specs with their (possibly updated) props, and the ranges requested so
far. -/
structure CycleState where
  currentBranches : List Line
  allHistory : List Line
  changeCount : Nat
  changes : List PollerChange
  specsOut : List BranchSpec
  ranges : List LogRange
deriving DecidableEq, Repr

/-- The per-branch loop of `_process_changes`: compute the range, run the
log query (`gitLog` is the oracle giving the `splitlines()` of its output),
parse and emit. -/
def process_changes_go (remoteName : Line) (mergeBase : List Line → Line)
    (gitLog : LogRange → List Line) :
    List BranchSpec → CycleState → Except PollerError CycleState
  | [], st => Except.ok st
  | spec :: rest, st =>
      let r := computeRange remoteName mergeBase st.allHistory st.currentBranches spec
      match parse_log_results (gitLog r.range) spec.branch spec.localBranch
          spec.props r.historic with
      | Except.error e => Except.error e
      | Except.ok br =>
          process_changes_go remoteName mergeBase gitLog rest
            ⟨r.currentBranches, r.allHistory,
             st.changeCount + br.countAdd,
             st.changes ++ br.changes,
             st.specsOut ++ [⟨spec.branch, spec.localBranch, br.props⟩],
             st.ranges ++ [r.range]⟩

/-- `GitMultiPoller._process_changes`: one poll cycle over all branch specs,
starting from `changeCount = 0`. -/
def process_changes (remoteName : Line) (mergeBase : List Line → Line)
    (gitLog : LogRange → List Line) (specs : List BranchSpec)
    (allHistory : List Line) : Except PollerError CycleState :=
  match (if allHistory = [] then Except.ok []
         else initCurrentBranches remoteName allHistory specs) with
  | Except.error e => Except.error e
  | Except.ok cb0 =>
      process_changes_go remoteName mergeBase gitLog specs ⟨cb0, allHistory, 0, [], [], []⟩

/-- The ranges a cycle would request, computed by folding `computeRange`
alone: a pure function of the specs and the backfill bookkeeping, taking no
input from the log outputs or the emitted commits. -/
def rangesOf (remoteName : Line) (mergeBase : List Line → Line) :
    List BranchSpec → List Line → List Line → List LogRange
  | [], _, _ => []
  | spec :: rest, ah, cb =>
      let r := computeRange remoteName mergeBase ah cb spec
      r.range :: rangesOf remoteName mergeBase rest r.allHistory r.currentBranches

/-! Well-formed `git log` output, used to state that the parser accepts the
protocol it was built for: `renderCommit` lays out one commit record exactly
as the format string of `_prepare_format_str` does (commit separator; the
simple fields `hash`, `name`, `timestamp`; the multi-line fields `subject`
and `body` each closed by the field separator; the file-list separator; the
touched files). -/

/-- The data of one commit as git would substitute it into the format
string. -/
structure CommitRecord where
  hash : Line
  name : Line
  timestamp : Line
  subject : Line
  bodyLines : List Line
  files : List Line
deriving DecidableEq, Repr

/-- The lines of `git log` output for one commit record. -/
def renderCommit (c : CommitRecord) : List Line :=
  [log_separator_commit,
   "hash: ".data ++ c.hash,
   "name: ".data ++ c.name,
   "timestamp: ".data ++ c.timestamp,
   "subject:+".data]
  ++ [c.subject]
  ++ [log_separator_fields, "body:+".data]
  ++ c.bodyLines
  ++ [log_separator_fields, log_separator_files]
  ++ c.files

/-- A free-text line that does not collide with any of the three
sentinels. -/
def GoodContentLine (l : Line) : Prop :=
  l ≠ log_separator_commit ∧ l ≠ log_separator_files ∧ l ≠ log_separator_fields

/-- Well-formedness of a commit record as rendered into log output: its
free-text lines collide with no sentinel, and its file paths are nonempty
and carry no surrounding whitespace. -/
structure WFCommit (c : CommitRecord) : Prop where
  subject_ok : GoodContentLine c.subject
  body_ok : ∀ l ∈ c.bodyLines, GoodContentLine l
  files_ok : ∀ l ∈ c.files, GoodContentLine l ∧ l ≠ [] ∧ stripLine l = l

instance {ε α : Type} [DecidableEq ε] [DecidableEq α] : DecidableEq (Except ε α)
  | Except.ok x, Except.ok y =>
      match decEq x y with
      | isTrue h => isTrue (by rw [h])
      | isFalse h => isFalse (by intro hc; injection hc; contradiction)
  | Except.ok _, Except.error _ => isFalse (by intro hc; injection hc)
  | Except.error _, Except.ok _ => isFalse (by intro hc; injection hc)
  | Except.error e, Except.error f =>
      match decEq e f with
      | isTrue h => isTrue (by rw [h])
      | isFalse h => isFalse (by intro hc; injection hc; contradiction)

instance (l : Line) : Decidable (GoodContentLine l) :=
  decidable_of_iff
    (l ≠ log_separator_commit ∧ l ≠ log_separator_files ∧ l ≠ log_separator_fields)
    Iff.rfl

/-- The record the parser builds from one rendered commit. -/
def commitToRevDict (c : CommitRecord) : RevDict :=
  { hash? := some c.hash,
    name? := some c.name,
    timestamp? := some c.timestamp,
    subject? := some (c.subject ++ ['\n']),
    body? := some ((c.bodyLines.map (fun l => l ++ ['\n'])).flatten),
    files? := some c.files }

/-! Helper lemmas shared by the theorems below. -/

/-- The union sorted by number is a permutation of the union. -/
lemma sortedByNumber_perm (cs : List Change) : (sortedByNumber cs).Perm cs :=
  List.perm_insertionSort byNumber cs

/-- The union sorted by number is sorted by number. -/
lemma sortedByNumber_sorted (cs : List Change) : List.Sorted byNumber (sortedByNumber cs) :=
  List.sorted_insertionSort byNumber cs

lemma mem_sortedByNumber {c : Change} {cs : List Change} (h : c ∈ cs) :
    c ∈ sortedByNumber cs := ((sortedByNumber_perm cs).mem_iff).mpr h

lemma length_sortedByNumber (cs : List Change) :
    (sortedByNumber cs).length = cs.length := (sortedByNumber_perm cs).length_eq

lemma getPendingBuildTimes_length_le_one (st : Option Int) (now : Int) :
    (getPendingBuildTimes st now).length ≤ 1 := by
  cases st with
  | none => simp [getPendingBuildTimes]
  | some t =>
      simp only [getPendingBuildTimes]
      split <;> simp

/-- Unfolded form of one `Dependent._run` loop iteration starting from an
arbitrary accumulator. -/
lemma Dependent_run_go (subs : List BuildsetSubscription) (acc : DependentTrace) :
    subs.foldl
      (fun acc s =>
        if s.complete then
          let acc1 :=
            if s.results = BuildResult.success ∨ s.results = BuildResult.warnings then
              { acc with created := acc.created ++ [s.ssid] }
            else acc
          { acc1 with unsubscribed := acc1.unsubscribed ++ [s.bsid] }
        else acc) acc
    = ⟨acc.created
        ++ (subs.filter (fun s => s.complete
              && (decide (s.results = BuildResult.success)
                  || decide (s.results = BuildResult.warnings)))).map (fun s => s.ssid),
       acc.unsubscribed ++ (subs.filter (fun s => s.complete)).map (fun s => s.bsid)⟩ := by
  induction subs generalizing acc with
  | nil => simp
  | cons s rest ih =>
      simp only [List.foldl_cons]
      by_cases hc : s.complete
      · by_cases hr : s.results = BuildResult.success ∨ s.results = BuildResult.warnings
        · rw [if_pos hc, if_pos hr, ih]
          rcases hr with hr | hr <;> simp [List.filter_cons, hc, hr]
        · rw [if_pos hc, if_neg hr, ih]
          push_neg at hr
          simp [List.filter_cons, hc, hr.1, hr.2]
      · rw [if_neg hc, ih]
        simp [List.filter_cons, hc]

/-! Single-line stepping lemmas for the log parser. -/

lemma parseLogLine_commitSep (st : PState) :
    parseLogLine st log_separator_commit
      = Except.ok ⟨st.revList ++ flushRev st.revDict, some {}, none, false⟩ := by
  simp [parseLogLine]

lemma parseLogLine_hashLine (L : List RevDict) (rd : RevDict) (H : Line) :
    parseLogLine ⟨L, some rd, none, false⟩ ('h' :: 'a' :: 's' :: 'h' :: ':' :: ' ' :: H)
      = Except.ok ⟨L, some (rd.set LogField.hash H), none, false⟩ := by
  simp [parseLogLine, String.data, log_separator_commit, log_separator_files,
    splitOnce, fieldOfName]

lemma parseLogLine_nameLine (L : List RevDict) (rd : RevDict) (N : Line) :
    parseLogLine ⟨L, some rd, none, false⟩ ('n' :: 'a' :: 'm' :: 'e' :: ':' :: ' ' :: N)
      = Except.ok ⟨L, some (rd.set LogField.name N), none, false⟩ := by
  simp [parseLogLine, String.data, log_separator_commit, log_separator_files,
    splitOnce, fieldOfName]

lemma parseLogLine_tsLine (L : List RevDict) (rd : RevDict) (T : Line) :
    parseLogLine ⟨L, some rd, none, false⟩ ('t' :: 'i' :: 'm' :: 'e' :: 's' :: 't' :: 'a' :: 'm' :: 'p' :: ':' :: ' ' :: T)
      = Except.ok ⟨L, some (rd.set LogField.timestamp T), none, false⟩ := by
  simp [parseLogLine, String.data, log_separator_commit, log_separator_files,
    splitOnce, fieldOfName]

lemma parseLogLine_subjOpen (L : List RevDict) (rd : RevDict) :
    parseLogLine ⟨L, some rd, none, false⟩ ['s', 'u', 'b', 'j', 'e', 'c', 't', ':', '+']
      = Except.ok ⟨L, some (rd.set LogField.subject []), some LogField.subject, false⟩ := by
  simp [parseLogLine, String.data, log_separator_commit, log_separator_files,
    splitOnce, fieldOfName, fieldIsMultiline]

lemma parseLogLine_bodyOpen (L : List RevDict) (rd : RevDict) :
    parseLogLine ⟨L, some rd, none, false⟩ ['b', 'o', 'd', 'y', ':', '+']
      = Except.ok ⟨L, some (rd.set LogField.body []), some LogField.body, false⟩ := by
  simp [parseLogLine, String.data, log_separator_commit, log_separator_files,
    splitOnce, fieldOfName, fieldIsMultiline]

lemma parseLogLine_fieldsSep (L : List RevDict) (rd : RevDict) (bf : LogField) (inF : Bool) :
    parseLogLine ⟨L, some rd, some bf, inF⟩ log_separator_fields
      = Except.ok ⟨L, some rd, none, inF⟩ := by
  simp [parseLogLine, String.data, log_separator_commit, log_separator_files,
    log_separator_fields]

lemma parseLogLine_bodyLine (L : List RevDict) (rd : RevDict) (bf : LogField)
    (inF : Bool) (l : Line) (h : GoodContentLine l) :
    parseLogLine ⟨L, some rd, some bf, inF⟩ l
      = Except.ok ⟨L, some (rd.appendTo bf (l ++ ['\n'])), some bf, inF⟩ := by
  simp [parseLogLine, h.1, h.2.1, h.2.2]

lemma parseLogLine_filesSep (L : List RevDict) (rd : RevDict) (bf : Option LogField)
    (inF : Bool) :
    parseLogLine ⟨L, some rd, bf, inF⟩ log_separator_files
      = Except.ok ⟨L, some ({ rd with files? := some [] }), none, true⟩ := by
  simp [parseLogLine, String.data, log_separator_commit, log_separator_files]

lemma parseLogLine_fileLine (L : List RevDict) (rd : RevDict) (fs : List Line)
    (l : Line) (h : GoodContentLine l) (hne : l ≠ []) (hfs : rd.files? = some fs) :
    parseLogLine ⟨L, some rd, none, true⟩ l
      = Except.ok ⟨L, some ({ rd with files? := some (fs ++ [stripLine l]) }), none, true⟩ := by
  simp [parseLogLine, h.1, h.2.1, h.2.2, hne, hfs]

lemma runLines_cons_ok {st st' : PState} {l : Line} (ls : List Line)
    (h : parseLogLine st l = Except.ok st') :
    runLines st (l :: ls) = runLines st' ls := by
  simp [runLines, h]

/-- Body-continuation lines accumulate through `appendTo`. -/
lemma runLines_bodyLines (bls : List Line) (h : ∀ l ∈ bls, GoodContentLine l)
    (L : List RevDict) (rd : RevDict) (bf : LogField) (inF : Bool) (rest : List Line) :
    runLines ⟨L, some rd, some bf, inF⟩ (bls ++ rest)
      = runLines ⟨L, some (bls.foldl (fun r l => r.appendTo bf (l ++ ['\n'])) rd),
                  some bf, inF⟩ rest := by
  induction bls generalizing rd with
  | nil => simp
  | cons b bs ih =>
      rw [List.cons_append,
        runLines_cons_ok _ (parseLogLine_bodyLine L rd bf inF b (h b (by simp))),
        ih (fun l hl => h l (by simp [hl]))]
      simp

/-- File-list lines accumulate into `files` (stripped; strip is the identity
on well-formed paths). -/
lemma runLines_files (fls : List Line)
    (h : ∀ l ∈ fls, GoodContentLine l ∧ l ≠ [] ∧ stripLine l = l)
    (L : List RevDict) (rd : RevDict) (fs : List Line) (rest : List Line)
    (hfs : rd.files? = some fs) :
    runLines ⟨L, some rd, none, true⟩ (fls ++ rest)
      = runLines ⟨L, some ({ rd with files? := some (fs ++ fls) }), none, true⟩ rest := by
  induction fls generalizing rd fs with
  | nil =>
      cases rd
      simp_all
  | cons f fl ih =>
      obtain ⟨h1, h2, h3⟩ := h f (by simp)
      rw [List.cons_append, runLines_cons_ok _ (parseLogLine_fileLine L rd fs f h1 h2 hfs),
        ih (fun l hl => h l (by simp [hl])) _ (fs ++ [stripLine f]) rfl]
      simp [h3]

/-- Folding body lines over `appendTo body` only extends the `body` entry. -/
lemma foldl_appendTo_body (bls : List Line) (rd : RevDict) (B : Line)
    (hb : rd.body? = some B) :
    bls.foldl (fun r l => r.appendTo LogField.body (l ++ ['\n'])) rd
      = { rd with body? := some (B ++ (bls.map (fun l => l ++ ['\n'])).flatten) } := by
  induction bls generalizing rd B with
  | nil =>
      cases rd
      simp_all
  | cons b bs ih =>
      rw [List.foldl_cons]
      have h1 : rd.appendTo LogField.body (b ++ ['\n'])
          = { rd with body? := some (B ++ (b ++ ['\n'])) } := by
        simp [RevDict.appendTo, RevDict.set, RevDict.get, hb]
      rw [h1, ih _ (B ++ (b ++ ['\n'])) rfl]
      simp

/-- The record built from one rendered commit is truthy. -/
lemma flushRev_commitToRevDict (c : CommitRecord) :
    flushRev (some (commitToRevDict c)) = [commitToRevDict c] := by
  simp [flushRev, commitToRevDict, RevDict.isEmpty]

/-- Running the parser over one rendered commit from any state: the pending
record is flushed and the commit's record becomes current. -/
lemma runLines_renderCommit (c : CommitRecord) (hwf : WFCommit c)
    (L : List RevDict) (d : Option RevDict) (bf : Option LogField) (inF : Bool)
    (rest : List Line) :
    runLines ⟨L, d, bf, inF⟩ (renderCommit c ++ rest)
      = runLines ⟨L ++ flushRev d, some (commitToRevDict c), none, true⟩ rest := by
  simp only [renderCommit, List.cons_append, List.nil_append, List.append_assoc]
  rw [runLines_cons_ok _ (parseLogLine_commitSep ⟨L, d, bf, inF⟩),
    runLines_cons_ok _ (parseLogLine_hashLine _ _ _),
    runLines_cons_ok _ (parseLogLine_nameLine _ _ _),
    runLines_cons_ok _ (parseLogLine_tsLine _ _ _),
    runLines_cons_ok _ (parseLogLine_subjOpen _ _),
    runLines_cons_ok _ (parseLogLine_bodyLine _ _ _ _ _ hwf.subject_ok),
    runLines_cons_ok _ (parseLogLine_fieldsSep _ _ _ _),
    runLines_cons_ok _ (parseLogLine_bodyOpen _ _),
    runLines_bodyLines c.bodyLines hwf.body_ok,
    runLines_cons_ok _ (parseLogLine_fieldsSep _ _ _ _),
    runLines_cons_ok _ (parseLogLine_filesSep _ _ _ _),
    runLines_files c.files hwf.files_ok _ _ [] _ ?hfs]
  case hfs =>
    rfl
  rw [foldl_appendTo_body _ _ [] ?hb]
  case hb =>
    simp [RevDict.appendTo, RevDict.set, RevDict.get]
  simp [commitToRevDict, RevDict.appendTo, RevDict.set, RevDict.get]

/-- Running the parser over a sequence of well-formed rendered commits and
flushing yields exactly the commit records, behind whatever was pending. -/
lemma runLines_render_flatten (cs : List CommitRecord) (hwf : ∀ c ∈ cs, WFCommit c) :
    ∀ (L : List RevDict) (d : Option RevDict) (bf : Option LogField) (inF : Bool),
    (runLines ⟨L, d, bf, inF⟩ ((cs.map renderCommit).flatten)).map
        (fun stf => stf.revList ++ flushRev stf.revDict)
      = Except.ok ((L ++ flushRev d) ++ cs.map commitToRevDict) := by
  induction cs with
  | nil =>
      intro L d bf inF
      simp [runLines, Except.map]
  | cons c rest ih =>
      intro L d bf inF
      have h1 : ((c :: rest).map renderCommit).flatten
          = renderCommit c ++ (rest.map renderCommit).flatten := by simp
      rw [h1, runLines_renderCommit c (hwf c (by simp)) L d bf inF,
        ih (fun x hx => hwf x (by simp [hx]))]
      rw [flushRev_commitToRevDict]
      simp

/-- `parseLogResults` as a map over the line loop. -/
lemma parseLogResults_eq_map (lines : List Line) :
    parseLogResults lines
      = (runLines ⟨[], none, none, false⟩ lines).map
          (fun stf => stf.revList ++ flushRev stf.revDict) := by
  unfold parseLogResults
  cases runLines ⟨[], none, none, false⟩ lines <;> simp [Except.map]

/-- The parser accepts well-formed rendered output and returns the records
in the rendered (newest-first) order. -/
lemma parseLogResults_render (cs : List CommitRecord) (hwf : ∀ c ∈ cs, WFCommit c) :
    parseLogResults ((cs.map renderCommit).flatten) = Except.ok (cs.map commitToRevDict) := by
  rw [parseLogResults_eq_map, runLines_render_flatten cs hwf [] none none false]
  simp [flushRev]

/-! Lemmas about the emission loop. -/

lemma doAddChange_complete (branch : Line) (rd : RevDict) (historic : Bool)
    (h : CompleteRev rd) :
    doAddChange branch rd historic = Except.ok (changeOfRevDict branch historic rd) := by
  obtain ⟨h1, h2, h3, h4, h5, h6⟩ := h
  obtain ⟨v1, e1⟩ := Option.isSome_iff_exists.mp h1
  obtain ⟨v2, e2⟩ := Option.isSome_iff_exists.mp h2
  obtain ⟨v3, e3⟩ := Option.isSome_iff_exists.mp h3
  obtain ⟨v4, e4⟩ := Option.isSome_iff_exists.mp h4
  obtain ⟨v5, e5⟩ := Option.isSome_iff_exists.mp h5
  obtain ⟨v6, e6⟩ := Option.isSome_iff_exists.mp h6
  simp [doAddChange, changeOfRevDict, e1, e2, e3, e4, e5, e6]

lemma updatedProps_nil (branch : Option Line) (props : Option BranchProps) :
    updatedProps branch props [] = props := by
  cases branch <;> simp [updatedProps]

lemma updatedProps_cons_none (props : Option BranchProps) (rd : RevDict)
    (l : List RevDict) (h : Line) (hh : rd.hash? = some h) :
    updatedProps none props (rd :: l)
      = updatedProps none (props.map (fun _ => { last_head := some h })) l := by
  simp [updatedProps, hh]

/-- The emission loop on complete records: all changes are submitted in list
order and the props evolve as `updatedProps` describes. -/
lemma emitRevs_spec (branch : Option Line) (localBranch : Line) (historic : Bool)
    (l : List RevDict) (props : Option BranchProps) (acc : List PollerChange)
    (hc : ∀ rd ∈ l, CompleteRev rd) (hbp : branch.isSome ∨ props.isSome) :
    emitRevs branch localBranch historic l props acc
      = Except.ok (acc ++ l.map (changeOfRevDict (branch.getD localBranch) historic),
                   updatedProps branch props l) := by
  induction l generalizing props acc with
  | nil => simp [emitRevs, updatedProps_nil]
  | cons rd rest ih =>
      have hcomp := hc rd (by simp)
      obtain ⟨hh, -⟩ := id hcomp
      obtain ⟨h, eh⟩ := Option.isSome_iff_exists.mp hh
      have hrest : ∀ x ∈ rest, CompleteRev x := fun x hx => hc x (by simp [hx])
      rw [emitRevs, doAddChange_complete _ _ _ hcomp, eh]
      cases branch with
      | none =>
          cases props with
          | none => simp at hbp
          | some p =>
              calc (match (none : Option Line), some h with
                    | none, some h =>
                        match some p with
                        | some _ => emitRevs none localBranch historic rest
                            (some { last_head := some h })
                            (acc ++ [changeOfRevDict ((none : Option Line).getD localBranch) historic rd])
                        | none => Except.error PollerError.propsTypeError
                    | _, _ => emitRevs none localBranch historic rest (some p)
                        (acc ++ [changeOfRevDict ((none : Option Line).getD localBranch) historic rd]))
                  = emitRevs none localBranch historic rest (some { last_head := some h })
                      (acc ++ [changeOfRevDict ((none : Option Line).getD localBranch) historic rd]) := rfl
                _ = Except.ok ((acc ++ [changeOfRevDict ((none : Option Line).getD localBranch) historic rd])
                      ++ rest.map (changeOfRevDict ((none : Option Line).getD localBranch) historic),
                      updatedProps none (some { last_head := some h }) rest) :=
                    ih _ _ hrest (Or.inr (by simp))
                _ = Except.ok (acc ++ (rd :: rest).map (changeOfRevDict ((none : Option Line).getD localBranch) historic),
                      updatedProps none (some p) (rd :: rest)) := by
                    rw [updatedProps_cons_none _ _ _ _ eh]
                    simp [updatedProps]
      | some b =>
          calc (match (some b : Option Line), some h with
                | none, some h =>
                    match props with
                    | some _ => emitRevs (some b) localBranch historic rest
                        (some { last_head := some h })
                        (acc ++ [changeOfRevDict ((some b : Option Line).getD localBranch) historic rd])
                    | none => Except.error PollerError.propsTypeError
                | _, _ => emitRevs (some b) localBranch historic rest props
                    (acc ++ [changeOfRevDict ((some b : Option Line).getD localBranch) historic rd]))
              = emitRevs (some b) localBranch historic rest props
                  (acc ++ [changeOfRevDict ((some b : Option Line).getD localBranch) historic rd]) := rfl
            _ = Except.ok ((acc ++ [changeOfRevDict ((some b : Option Line).getD localBranch) historic rd])
                  ++ rest.map (changeOfRevDict ((some b : Option Line).getD localBranch) historic),
                  updatedProps (some b) props rest) :=
                ih _ _ hrest (Or.inl (by simp))
            _ = Except.ok (acc ++ (rd :: rest).map (changeOfRevDict ((some b : Option Line).getD localBranch) historic),
                  updatedProps (some b) props (rd :: rest)) := by
                simp [updatedProps]

/-- Characterization of one `_parse_log_results` call on parseable output
made of complete records. -/
lemma parse_log_results_ok (lines : List Line) (branch : Option Line)
    (localBranch : Line) (props : Option BranchProps) (historic : Bool)
    (revList : List RevDict)
    (hp : parseLogResults lines = Except.ok revList)
    (hc : ∀ rd ∈ revList, CompleteRev rd)
    (hbp : branch.isSome ∨ props.isSome) :
    parse_log_results lines branch localBranch props historic
      = Except.ok ⟨revList.reverse.map (changeOfRevDict (branch.getD localBranch) historic),
                   updatedProps branch props revList.reverse,
                   revList.length⟩ := by
  unfold parse_log_results
  rw [hp]
  show (if revList = [] then
          Except.ok ({ changes := [], props := props, countAdd := 0 } : BranchParseResult)
        else match emitRevs branch localBranch historic revList.reverse props [] with
          | Except.error e => Except.error e
          | Except.ok (chs, props') =>
              Except.ok ({ changes := chs, props := props', countAdd := revList.length } : BranchParseResult))
      = _
  by_cases hnil : revList = []
  · subst hnil
    simp [updatedProps_nil]
  · rw [if_neg hnil,
      emitRevs_spec branch localBranch historic revList.reverse props []
        (fun rd hrd => hc rd (List.mem_reverse.mp hrd)) hbp]
    simp

/-- `updatedProps` on a local-only branch ends at the hash of the last
record that carries one. -/
lemma updatedProps_concat (q : BranchProps) (l : List RevDict) (rd : RevDict)
    (h : Line) (hh : rd.hash? = some h) :
    updatedProps none (some q) (l ++ [rd]) = some { last_head := some h } := by
  have hex : ∀ (p : Option BranchProps), p.isSome →
      (l ++ [rd]).foldl
        (fun p rd =>
          match rd.hash? with
          | some h => p.map (fun _ => ({ last_head := some h } : BranchProps))
          | none => p)
        p = some { last_head := some h } := by
    induction l with
    | nil =>
        intro p hp
        obtain ⟨q0, rfl⟩ := Option.isSome_iff_exists.mp hp
        simp [hh]
    | cons x xs ih =>
        intro p hp
        obtain ⟨q0, rfl⟩ := Option.isSome_iff_exists.mp hp
        rw [List.cons_append, List.foldl_cons]
        cases hx : x.hash? with
        | none => exact ih _ (by simp)
        | some h2 => exact ih _ (by simp)
  exact hex (some q) (by simp)

/-- The ranges a successful poll cycle records are the pure fold of
`computeRange`, independent of the log outputs and of how many commits each
branch emitted. -/
lemma process_changes_go_ranges (remoteName : Line) (mergeBase : List Line → Line)
    (gitLog : LogRange → List Line) (specs : List BranchSpec) :
    ∀ (st st' : CycleState),
    process_changes_go remoteName mergeBase gitLog specs st = Except.ok st' →
    st'.ranges = st.ranges ++ rangesOf remoteName mergeBase specs st.allHistory st.currentBranches := by
  induction specs with
  | nil =>
      intro st st' h
      simp [process_changes_go] at h
      simp [← h, rangesOf]
  | cons spec rest ih =>
      intro st st' h
      rw [process_changes_go] at h
      cases hp : parse_log_results
          (gitLog (computeRange remoteName mergeBase st.allHistory st.currentBranches spec).range)
          spec.branch spec.localBranch spec.props
          (computeRange remoteName mergeBase st.allHistory st.currentBranches spec).historic with
      | error e => rw [hp] at h; exact absurd h (by simp)
      | ok br =>
          rw [hp] at h
          have h2 := ih _ _ h
          rw [h2]
          simp [rangesOf, List.append_assoc]

section ClaimTheorems

/-- C1 counterexample: with a 5-second window, one important change at
timestamp 1 and one unimportant change at timestamp 10, the code stores
`stableAt = 15` (driven by the unimportant change's timestamp), while the
claim predicts `1 + 5 = 6`; with the unimportant change absent the very same
call stores `6`, so unimportant timestamps do influence `stableAt`. -/
theorem c1_counterexample :
    (decide_and_remove_changes (some 5) 0 none [⟨1, 1, none⟩] [⟨2, 10, none⟩]).stableAt = some 15
    ∧ (decide_and_remove_changes (some 5) 0 none [⟨1, 1, none⟩] []).stableAt = some 6
    ∧ (15 : Int) ≠ 1 + 5 := by decide

/-- C1 (amended): with a debounce window `w` configured and a nonempty list
of pending important changes whose window has not yet closed, the stored
debounce deadline `stableAt` is the maximum `when` timestamp over ALL pending
changes — important and unimportant alike — plus the window. -/
theorem c1_stableAt_uses_all_pending_changes (w now : Int) (st : Option Int)
    (imp unimp : List Change) (h : imp ≠ [])
    (hw : now < maxWhen (imp ++ unimp) + w) :
    (decide_and_remove_changes (some w) now st imp unimp).stableAt
      = some (maxWhen (imp ++ unimp) + w) := by
  simp [decide_and_remove_changes, h, hw]

/-- C1 witness: the amended statement evaluated at a concrete input. -/
theorem c1_witness :
    (decide_and_remove_changes (some 5) 0 none [⟨1, 1, none⟩] [⟨2, 10, none⟩]).stableAt
      = some (maxWhen ([⟨1, 1, none⟩] ++ [⟨2, 10, none⟩]) + 5) :=
  c1_stableAt_uses_all_pending_changes 5 0 none [⟨1, 1, none⟩] [⟨2, 10, none⟩]
    (by decide) (by decide)

/-- C2: with a debounce window configured, nonempty important changes and a
closed window, exactly one buildset is created; its SourceStamp is the union
of all pending important and unimportant changes ordered by ascending change
number (a sorted permutation of the union), and every change of the union is
retired in the same evaluation. -/
theorem c2_debounce_trigger_single_buildset (w now : Int) (st : Option Int)
    (imp unimp : List Change) (h : imp ≠ [])
    (hw : maxWhen (imp ++ unimp) + w ≤ now) :
    (decide_and_remove_changes (some w) now st imp unimp).trace.buildsets
        = [sortedByNumber (imp ++ unimp)]
    ∧ (sortedByNumber (imp ++ unimp)).Perm (imp ++ unimp)
    ∧ List.Sorted byNumber (sortedByNumber (imp ++ unimp))
    ∧ (decide_and_remove_changes (some w) now st imp unimp).trace.retired
        = (sortedByNumber (imp ++ unimp)).map (fun c => c.number)
    ∧ (∀ c ∈ imp ++ unimp,
        c.number ∈ (decide_and_remove_changes (some w) now st imp unimp).trace.retired) := by
  have hnl : ¬ now < maxWhen (imp ++ unimp) + w := not_lt.mpr hw
  refine ⟨?_, sortedByNumber_perm _, sortedByNumber_sorted _, ?_, ?_⟩
  · simp [decide_and_remove_changes, h, hnl, add_build_and_remove_changes]
  · simp [decide_and_remove_changes, h, hnl, add_build_and_remove_changes]
  · intro c hc
    simp only [decide_and_remove_changes, if_neg h, if_neg hnl, add_build_and_remove_changes]
    exact List.mem_map_of_mem _ (mem_sortedByNumber hc)

/-- C2 witness: the theorem applied at a concrete closed-window input. -/
theorem c2_witness :
    (decide_and_remove_changes (some 5) 20 none [⟨1, 1, none⟩] [⟨2, 0, none⟩]).trace.buildsets
        = [sortedByNumber ([⟨1, 1, none⟩] ++ [⟨2, 0, none⟩])]
    ∧ (sortedByNumber ([⟨1, 1, none⟩] ++ [⟨2, 0, none⟩])).Perm ([⟨1, 1, none⟩] ++ [⟨2, 0, none⟩])
    ∧ List.Sorted byNumber (sortedByNumber ([⟨1, 1, none⟩] ++ [⟨2, 0, none⟩]))
    ∧ (decide_and_remove_changes (some 5) 20 none [⟨1, 1, none⟩] [⟨2, 0, none⟩]).trace.retired
        = (sortedByNumber ([⟨1, 1, none⟩] ++ [⟨2, 0, none⟩])).map (fun c => c.number)
    ∧ (∀ c ∈ ([⟨1, 1, none⟩] ++ [⟨2, 0, none⟩] : List Change),
        c.number ∈ (decide_and_remove_changes (some 5) 20 none [⟨1, 1, none⟩] [⟨2, 0, none⟩]).trace.retired) :=
  c2_debounce_trigger_single_buildset 5 20 none [⟨1, 1, none⟩] [⟨2, 0, none⟩]
    (by decide) (by decide)

/-- C5: with no debounce window, each important change produces its own
singleton buildset, in ascending change-number order; no buildset contains an
unimportant change, all pending changes (important and unimportant) are
retired together, and with no important change pending nothing at all is
created or retired (unimportant changes alone never produce a buildset). -/
theorem c5_no_debounce_one_buildset_per_important (now : Int) (st : Option Int)
    (imp unimp : List Change) (h : imp ≠ []) :
    (decide_and_remove_changes none now st imp unimp).trace.buildsets
        = (sortedByNumber imp).map (fun c => [c])
    ∧ (decide_and_remove_changes none now st imp unimp).trace.buildsets.length = imp.length
    ∧ (∀ bs ∈ (decide_and_remove_changes none now st imp unimp).trace.buildsets,
        ∃ c, c ∈ imp ∧ bs = [c])
    ∧ List.Sorted byNumber (sortedByNumber imp)
    ∧ (∀ c ∈ imp ++ unimp,
        c.number ∈ (decide_and_remove_changes none now st imp unimp).trace.retired)
    ∧ (∀ u2 : List Change,
        (decide_and_remove_changes none now st [] u2).trace = ⟨[], []⟩) := by
  refine ⟨?_, ?_, ?_, sortedByNumber_sorted _, ?_, ?_⟩
  · simp [decide_and_remove_changes, h, add_build_and_remove_changes]
  · simp [decide_and_remove_changes, h, add_build_and_remove_changes, length_sortedByNumber]
  · intro bs hbs
    simp only [decide_and_remove_changes, if_neg h, add_build_and_remove_changes,
      List.mem_map] at hbs
    obtain ⟨c, hc, rfl⟩ := hbs
    exact ⟨c, ((sortedByNumber_perm imp).mem_iff).mp hc, rfl⟩
  · intro c hc
    simp only [decide_and_remove_changes, if_neg h, add_build_and_remove_changes]
    exact List.mem_map_of_mem _ (mem_sortedByNumber hc)
  · intro u2
    rfl

/-- C5 witness: the theorem applied at a concrete input with two important
and one unimportant change. -/
theorem c5_witness :
    (decide_and_remove_changes none 0 none [⟨3, 1, none⟩, ⟨1, 2, none⟩] [⟨2, 0, none⟩]).trace.buildsets
        = (sortedByNumber [⟨3, 1, none⟩, ⟨1, 2, none⟩]).map (fun c => [c])
    ∧ (decide_and_remove_changes none 0 none [⟨3, 1, none⟩, ⟨1, 2, none⟩] [⟨2, 0, none⟩]).trace.buildsets.length
        = ([⟨3, 1, none⟩, ⟨1, 2, none⟩] : List Change).length
    ∧ (∀ bs ∈ (decide_and_remove_changes none 0 none [⟨3, 1, none⟩, ⟨1, 2, none⟩] [⟨2, 0, none⟩]).trace.buildsets,
        ∃ c, c ∈ ([⟨3, 1, none⟩, ⟨1, 2, none⟩] : List Change) ∧ bs = [c])
    ∧ List.Sorted byNumber (sortedByNumber [⟨3, 1, none⟩, ⟨1, 2, none⟩])
    ∧ (∀ c ∈ ([⟨3, 1, none⟩, ⟨1, 2, none⟩] ++ [⟨2, 0, none⟩] : List Change),
        c.number ∈ (decide_and_remove_changes none 0 none [⟨3, 1, none⟩, ⟨1, 2, none⟩] [⟨2, 0, none⟩]).trace.retired)
    ∧ (∀ u2 : List Change,
        (decide_and_remove_changes none 0 none [] u2).trace = ⟨[], []⟩) :=
  c5_no_debounce_one_buildset_per_important 0 none [⟨3, 1, none⟩, ⟨1, 2, none⟩]
    [⟨2, 0, none⟩] (by decide)

/-- C6: debounce evaluation.  With a window `w` and nonempty important
changes: when `now` has reached `stableAt` a buildset is triggered and
`stableAt` is cleared; otherwise nothing is built or retired and the
evaluation returns the wake time `stableAt + 1`.  In particular, for
important changes with timestamps `t0` and `t0 + 2` under a 5-second window,
no evaluation before `t0 + 7` creates a buildset, and an evaluation at
`t0 + 7` creates exactly one buildset containing both changes. -/
theorem c6_debounce_window_behaviour (w now : Int) (st : Option Int)
    (imp unimp : List Change) (h : imp ≠ []) :
    (maxWhen (imp ++ unimp) + w ≤ now →
        (decide_and_remove_changes (some w) now st imp unimp).trace.buildsets
          = [sortedByNumber (imp ++ unimp)]
        ∧ (decide_and_remove_changes (some w) now st imp unimp).stableAt = none)
    ∧ (now < maxWhen (imp ++ unimp) + w →
        (decide_and_remove_changes (some w) now st imp unimp).trace.buildsets = []
        ∧ (decide_and_remove_changes (some w) now st imp unimp).trace.retired = []
        ∧ (decide_and_remove_changes (some w) now st imp unimp).wakeup
            = some (maxWhen (imp ++ unimp) + w + 1))
    ∧ (∀ t0 now2 : Int, ∀ st2 : Option Int,
        (t0 ≤ now2 → now2 < t0 + 2 →
          (decide_and_remove_changes (some 5) now2 st2 [⟨1, t0, none⟩] []).trace.buildsets = [])
        ∧ (t0 + 2 ≤ now2 → now2 < t0 + 7 →
          (decide_and_remove_changes (some 5) now2 st2
              [⟨1, t0, none⟩, ⟨2, t0 + 2, none⟩] []).trace.buildsets = [])
        ∧ (decide_and_remove_changes (some 5) (t0 + 7) st2
              [⟨1, t0, none⟩, ⟨2, t0 + 2, none⟩] []).trace.buildsets
            = [[⟨1, t0, none⟩, ⟨2, t0 + 2, none⟩]]) := by
  refine ⟨?_, ?_, ?_⟩
  · intro hle
    have hnl : ¬ now < maxWhen (imp ++ unimp) + w := not_lt.mpr hle
    constructor
    · simp [decide_and_remove_changes, h, hnl, add_build_and_remove_changes]
    · simp [decide_and_remove_changes, h, hnl]
  · intro hlt
    refine ⟨?_, ?_, ?_⟩ <;> simp [decide_and_remove_changes, h, hlt]
  · intro t0 now2 st2
    have hmax1 : maxWhen [⟨1, t0, none⟩] = t0 := by simp [maxWhen]
    have hmax2 : maxWhen [⟨1, t0, none⟩, ⟨2, t0 + 2, none⟩] = t0 + 2 := by
      simp only [maxWhen, List.foldl]
      omega
    refine ⟨?_, ?_, ?_⟩
    · intro h1 h2
      have hlt : now2 < maxWhen [⟨1, t0, none⟩] + 5 := by omega
      simp [decide_and_remove_changes, hlt]
    · intro h1 h2
      have hlt : now2 < maxWhen [⟨1, t0, none⟩, ⟨2, t0 + 2, none⟩] + 5 := by omega
      simp [decide_and_remove_changes, hlt]
    · have hnl : ¬ t0 + 7 < maxWhen [⟨1, t0, none⟩, ⟨2, t0 + 2, none⟩] + 5 := by omega
      simp [decide_and_remove_changes, hnl, add_build_and_remove_changes,
        sortedByNumber, List.insertionSort, List.orderedInsert, byNumber]

/-- C6 witness: the theorem applied at a concrete input. -/
theorem c6_witness :
    (maxWhen ([⟨1, 0, none⟩] ++ []) + 5 ≤ 9 →
        (decide_and_remove_changes (some 5) 9 none [⟨1, 0, none⟩] []).trace.buildsets
          = [sortedByNumber ([⟨1, 0, none⟩] ++ [])]
        ∧ (decide_and_remove_changes (some 5) 9 none [⟨1, 0, none⟩] []).stableAt = none)
    ∧ ((9 : Int) < maxWhen ([⟨1, 0, none⟩] ++ []) + 5 →
        (decide_and_remove_changes (some 5) 9 none [⟨1, 0, none⟩] []).trace.buildsets = []
        ∧ (decide_and_remove_changes (some 5) 9 none [⟨1, 0, none⟩] []).trace.retired = []
        ∧ (decide_and_remove_changes (some 5) 9 none [⟨1, 0, none⟩] []).wakeup
            = some (maxWhen ([⟨1, 0, none⟩] ++ []) + 5 + 1))
    ∧ (∀ t0 now2 : Int, ∀ st2 : Option Int,
        (t0 ≤ now2 → now2 < t0 + 2 →
          (decide_and_remove_changes (some 5) now2 st2 [⟨1, t0, none⟩] []).trace.buildsets = [])
        ∧ (t0 + 2 ≤ now2 → now2 < t0 + 7 →
          (decide_and_remove_changes (some 5) now2 st2
              [⟨1, t0, none⟩, ⟨2, t0 + 2, none⟩] []).trace.buildsets = [])
        ∧ (decide_and_remove_changes (some 5) (t0 + 7) st2
              [⟨1, t0, none⟩, ⟨2, t0 + 2, none⟩] []).trace.buildsets
            = [[⟨1, t0, none⟩, ⟨2, t0 + 2, none⟩]]) :=
  c6_debounce_window_behaviour 5 9 none [⟨1, 0, none⟩] [] (by decide)

/-- C7: one `Dependent._run` evaluation creates a new buildset exactly for
the complete subscriptions whose upstream result is success or warnings
(against the same SourceStamp id), unsubscribes exactly the complete
subscriptions, and does nothing for a list of incomplete subscriptions. -/
theorem c7_dependent_run_consumes_complete_subscriptions
    (subs : List BuildsetSubscription) :
    (Dependent_run subs).created
        = (subs.filter (fun s => s.complete
             && (decide (s.results = BuildResult.success)
                 || decide (s.results = BuildResult.warnings)))).map (fun s => s.ssid)
    ∧ (Dependent_run subs).unsubscribed
        = (subs.filter (fun s => s.complete)).map (fun s => s.bsid)
    ∧ Dependent_run (subs.filter (fun s => !s.complete)) = ⟨[], []⟩ := by
  refine ⟨?_, ?_, ?_⟩
  · rw [Dependent_run, Dependent_run_go]
    simp
  · rw [Dependent_run, Dependent_run_go]
    simp
  · rw [Dependent_run, Dependent_run_go]
    simp only [List.filter_filter]
    have h1 : ∀ a : BuildsetSubscription,
        ((a.complete && (decide (a.results = BuildResult.success)
            || decide (a.results = BuildResult.warnings))) && !a.complete) = false := by
      intro a
      cases a.complete <;> simp
    have h2 : ∀ a : BuildsetSubscription, (a.complete && !a.complete) = false := by
      intro a
      cases a.complete <;> simp
    simp [h1, h2]

/-- C10: `getPendingBuildTimes` returns at most one element: the singleton
`[stableAt]` when `stableAt` is set and strictly in the future (for a
nonnegative wall clock), and `[]` otherwise; the branch-fanning variant
threads the one shared `stableAt` field, so it too reports at most one
pending time. -/
theorem c10_pending_build_times (st : Option Int) (now : Int) (h : 0 ≤ now) :
    (getPendingBuildTimes st now).length ≤ 1
    ∧ (∀ t, st = some t → now < t → getPendingBuildTimes st now = [t])
    ∧ (∀ t, st = some t → t ≤ now → getPendingBuildTimes st now = [])
    ∧ (st = none → getPendingBuildTimes st now = [])
    ∧ (∀ tst stb imp unimp, ∀ now2 : Int,
        (getPendingBuildTimes
          (anyBranch_process_changes tst now stb imp unimp).stableAt now2).length ≤ 1) := by
  refine ⟨getPendingBuildTimes_length_le_one st now, ?_, ?_, ?_, ?_⟩
  · rintro t rfl hlt
    have ht : t ≠ 0 := by omega
    simp [getPendingBuildTimes, ht, hlt]
  · rintro t rfl hle
    have : ¬ (t ≠ 0 ∧ now < t) := by omega
    simp [getPendingBuildTimes, this]
  · rintro rfl
    simp [getPendingBuildTimes]
  · intro tst stb imp unimp now2
    exact getPendingBuildTimes_length_le_one _ now2

/-- C10 witness: the theorem applied at a concrete state and time. -/
theorem c10_witness :
    (getPendingBuildTimes (some 5) 3).length ≤ 1
    ∧ (∀ t, (some 5 : Option Int) = some t → 3 < t → getPendingBuildTimes (some 5) 3 = [t])
    ∧ (∀ t, (some 5 : Option Int) = some t → t ≤ 3 → getPendingBuildTimes (some 5) 3 = [])
    ∧ ((some 5 : Option Int) = none → getPendingBuildTimes (some 5) 3 = [])
    ∧ (∀ tst stb imp unimp, ∀ now2 : Int,
        (getPendingBuildTimes
          (anyBranch_process_changes tst 3 stb imp unimp).stableAt now2).length ≤ 1) :=
  c10_pending_build_times (some 5) 3 (by decide)

/-- C3: the commits parsed from one log query are emitted in the reverse of
the order the log returned them (oldest-first), with `changeCount` advanced
by the number of parsed commits; in particular, for a remote that advanced
by three commits `h1,h2,h3` (the log returning them newest-first), exactly
the changes `[h1,h2,h3]` are emitted in that order and `changeCount = 3`. -/
theorem c3_commits_emitted_in_reverse_log_order (lines : List Line)
    (branch : Option Line) (localBranch : Line) (props : Option BranchProps)
    (historic : Bool) (revList : List RevDict)
    (hp : parseLogResults lines = Except.ok revList)
    (hc : ∀ rd ∈ revList, CompleteRev rd)
    (hbp : branch.isSome ∨ props.isSome) :
    parse_log_results lines branch localBranch props historic
      = Except.ok ⟨revList.reverse.map (changeOfRevDict (branch.getD localBranch) historic),
                   updatedProps branch props revList.reverse,
                   revList.length⟩
    ∧ (process_changes "origin".data (fun _ => []) (fun _ =>
          (([⟨"h3".data, "an@b.c".data, "3".data, "s3".data, [], []⟩,
             ⟨"h2".data, "an@b.c".data, "2".data, "s2".data, [], []⟩,
             ⟨"h1".data, "an@b.c".data, "1".data, "s1".data, [], []⟩] :
              List CommitRecord).map renderCommit).flatten)
          [⟨some "main".data, "main".data, none⟩] []).map
        (fun st => (st.changes.map (fun c => c.revision), st.changeCount))
      = Except.ok (["h1".data, "h2".data, "h3".data], 3) := by
  refine ⟨parse_log_results_ok lines branch localBranch props historic revList hp hc hbp, ?_⟩
  decide

/-- C3 witness: the theorem applied to empty log output (nothing parsed,
nothing emitted). -/
theorem c3_witness :
    parse_log_results [] (some "b".data) "lb".data none false
      = Except.ok ⟨(([] : List RevDict)).reverse.map
                     (changeOfRevDict ((some "b".data).getD "lb".data) false),
                   updatedProps (some "b".data) none ([] : List RevDict).reverse,
                   ([] : List RevDict).length⟩
    ∧ (process_changes "origin".data (fun _ => []) (fun _ =>
          (([⟨"h3".data, "an@b.c".data, "3".data, "s3".data, [], []⟩,
             ⟨"h2".data, "an@b.c".data, "2".data, "s2".data, [], []⟩,
             ⟨"h1".data, "an@b.c".data, "1".data, "s1".data, [], []⟩] :
              List CommitRecord).map renderCommit).flatten)
          [⟨some "main".data, "main".data, none⟩] []).map
        (fun st => (st.changes.map (fun c => c.revision), st.changeCount))
      = Except.ok (["h1".data, "h2".data, "h3".data], 3) :=
  c3_commits_emitted_in_reverse_log_order [] (some "b".data) "lb".data none false []
    (by decide) (by simp) (Or.inl (by simp))

/-- C4: for a branch pending backfill, the requested range is
`mergeBase(already known tips)..tip` — or the entire history when no other
branch is yet known — and the branch is added to the known tips and removed
from the pending set at range-computation time; the sequence of requested
ranges is a pure fold of this step, taking no input from the log outputs, so
a backfilled branch with zero new commits still counts as known. -/
theorem c4_backfill_range_bookkeeping (remoteName : Line)
    (mergeBase : List Line → Line) (allHistory currentBranches : List Line)
    (spec : BranchSpec) (hpend : spec.localBranch ∈ allHistory) :
    (computeRange remoteName mergeBase allHistory currentBranches spec).historic = true
    ∧ (currentBranches ≠ [] → mergeBase currentBranches ≠ [] →
        stripLine (mergeBase currentBranches) ≠ [] →
        (computeRange remoteName mergeBase allHistory currentBranches spec).range
          = LogRange.fromTo (stripLine (mergeBase currentBranches)) (branchTip remoteName spec))
    ∧ (currentBranches = [] →
        (computeRange remoteName mergeBase allHistory currentBranches spec).range
          = LogRange.whole (branchTip remoteName spec))
    ∧ (computeRange remoteName mergeBase allHistory currentBranches spec).currentBranches
        = currentBranches ++ [branchTip remoteName spec]
    ∧ (computeRange remoteName mergeBase allHistory currentBranches spec).allHistory
        = allHistory.erase spec.localBranch
    ∧ (∀ (gitLog : LogRange → List Line) (specs : List BranchSpec) (st st' : CycleState),
        process_changes_go remoteName mergeBase gitLog specs st = Except.ok st' →
        st'.ranges = st.ranges
          ++ rangesOf remoteName mergeBase specs st.allHistory st.currentBranches) := by
  have hcond : allHistory ≠ [] ∧ spec.localBranch ∈ allHistory :=
    ⟨List.ne_nil_of_mem hpend, hpend⟩
  refine ⟨?_, ?_, ?_, ?_, ?_, ?_⟩
  · simp [computeRange, hcond]
  · intro h1 h2 h3
    simp [computeRange, hcond, h1, h2, h3]
  · intro h1
    simp [computeRange, hcond, h1]
  · simp [computeRange, hcond]
  · simp [computeRange, hcond]
  · intro gitLog specs st st' h
    exact process_changes_go_ranges remoteName mergeBase gitLog specs st st' h

/-- C4 witness: the theorem applied at a concrete pending-backfill spec. -/
theorem c4_witness :
    (computeRange "origin".data (fun _ => "h0".data) ["b".data] ["origin/a".data]
        ⟨some "b".data, "b".data, none⟩).historic = true
    ∧ (["origin/a".data] ≠ ([] : List Line) →
        (fun (_ : List Line) => "h0".data) ["origin/a".data] ≠ [] →
        stripLine ((fun (_ : List Line) => "h0".data) ["origin/a".data]) ≠ [] →
        (computeRange "origin".data (fun _ => "h0".data) ["b".data] ["origin/a".data]
            ⟨some "b".data, "b".data, none⟩).range
          = LogRange.fromTo (stripLine ((fun (_ : List Line) => "h0".data) ["origin/a".data]))
              (branchTip "origin".data ⟨some "b".data, "b".data, none⟩))
    ∧ (["origin/a".data] = ([] : List Line) →
        (computeRange "origin".data (fun _ => "h0".data) ["b".data] ["origin/a".data]
            ⟨some "b".data, "b".data, none⟩).range
          = LogRange.whole (branchTip "origin".data ⟨some "b".data, "b".data, none⟩))
    ∧ (computeRange "origin".data (fun _ => "h0".data) ["b".data] ["origin/a".data]
        ⟨some "b".data, "b".data, none⟩).currentBranches
        = ["origin/a".data] ++ [branchTip "origin".data ⟨some "b".data, "b".data, none⟩]
    ∧ (computeRange "origin".data (fun _ => "h0".data) ["b".data] ["origin/a".data]
        ⟨some "b".data, "b".data, none⟩).allHistory
        = ["b".data].erase "b".data
    ∧ (∀ (gitLog : LogRange → List Line) (specs : List BranchSpec) (st st' : CycleState),
        process_changes_go "origin".data (fun _ => "h0".data) gitLog specs st = Except.ok st' →
        st'.ranges = st.ranges
          ++ rangesOf "origin".data (fun _ => "h0".data) specs st.allHistory st.currentBranches) :=
  c4_backfill_range_bookkeeping "origin".data (fun _ => "h0".data) ["b".data]
    ["origin/a".data] ⟨some "b".data, "b".data, none⟩ (by decide)

/-- C8: for a local-only branch spec whose poll cycle emitted at least one
change, `props['last_head']` afterwards equals the hash of the newest (last)
emitted commit, the update being re-applied after each submission, and the
next poll's range for the branch is exactly `last_head..localBranch`. -/
theorem c8_local_only_last_head_advancement (localBranch : Line) (p : BranchProps)
    (lines : List Line) (revList : List RevDict) (rd0 : RevDict) (rds : List RevDict)
    (h : Line) (historic : Bool)
    (hp : parseLogResults lines = Except.ok revList)
    (hrev : revList = rd0 :: rds)
    (hc : ∀ rd ∈ revList, CompleteRev rd)
    (hh : rd0.hash? = some h) :
    (parse_log_results lines none localBranch (some p) historic).map
        (fun r => r.props) = Except.ok (some { last_head := some h })
    ∧ (parse_log_results lines none localBranch (some p) historic).map
        (fun r => (r.changes.map (fun c => c.revision)).getLast?)
        = Except.ok (some h)
    ∧ (∀ (l : List RevDict) (q : BranchProps) (rd : RevDict) (h2 : Line),
        rd.hash? = some h2 →
        updatedProps none (some q) (l ++ [rd]) = some { last_head := some h2 })
    ∧ (∀ (remoteName : Line) (mergeBase : List Line → Line) (ah cb : List Line),
        localBranch ∉ ah →
        (computeRange remoteName mergeBase ah cb
            ⟨none, localBranch, some { last_head := some h }⟩).range
          = LogRange.fromTo h localBranch) := by
  have hmain := parse_log_results_ok lines none localBranch (some p) historic revList
    hp hc (Or.inr (by simp))
  have hrevrev : revList.reverse = rds.reverse ++ [rd0] := by
    rw [hrev]
    simp
  refine ⟨?_, ?_, ?_, ?_⟩
  · rw [hmain]
    simp only [Except.map]
    rw [hrevrev, updatedProps_concat p rds.reverse rd0 h hh]
  · rw [hmain]
    simp only [Except.map]
    rw [hrevrev]
    simp [changeOfRevDict, hh]
  · intro l q rd h2 hh2
    exact updatedProps_concat q l rd h2 hh2
  · intro remoteName mergeBase ah cb hnot
    have hcond : ¬ (ah ≠ [] ∧ localBranch ∈ ah) := by
      intro hcontra
      exact hnot hcontra.2
    simp [computeRange, hcond]

/-- C8 witness: the theorem applied to the rendered log of one commit. -/
theorem c8_witness :
    (parse_log_results (renderCommit ⟨"aa".data, "n@m.c".data, "1".data, "s".data, [], []⟩)
        none "lb".data (some { last_head := some "a0".data }) false).map
        (fun r => r.props) = Except.ok (some { last_head := some "aa".data })
    ∧ (parse_log_results (renderCommit ⟨"aa".data, "n@m.c".data, "1".data, "s".data, [], []⟩)
        none "lb".data (some { last_head := some "a0".data }) false).map
        (fun r => (r.changes.map (fun c => c.revision)).getLast?)
        = Except.ok (some "aa".data)
    ∧ (∀ (l : List RevDict) (q : BranchProps) (rd : RevDict) (h2 : Line),
        rd.hash? = some h2 →
        updatedProps none (some q) (l ++ [rd]) = some { last_head := some h2 })
    ∧ (∀ (remoteName : Line) (mergeBase : List Line → Line) (ah cb : List Line),
        "lb".data ∉ ah →
        (computeRange remoteName mergeBase ah cb
            ⟨none, "lb".data, some { last_head := some "aa".data }⟩).range
          = LogRange.fromTo "aa".data "lb".data) :=
  c8_local_only_last_head_advancement "lb".data { last_head := some "a0".data }
    (renderCommit ⟨"aa".data, "n@m.c".data, "1".data, "s".data, [], []⟩)
    [commitToRevDict ⟨"aa".data, "n@m.c".data, "1".data, "s".data, [], []⟩]
    (commitToRevDict ⟨"aa".data, "n@m.c".data, "1".data, "s".data, [], []⟩) []
    "aa".data false (by decide) (by decide) (by decide) (by decide)

/-- C9: the three-sentinel parser raises a protocol error on a non-separator
line seen before any commit-start separator, and on a simple-field line
naming a field outside `{hash, subject, body, name, timestamp}`; well-formed
rendered output is parsed without error. -/
theorem c9_parser_protocol_errors (l : Line) (rest : List Line)
    (hgood : GoodContentLine l) :
    parseLogResults (l :: rest) = Except.error (PollerError.unknownLineOutsideCommit l)
    ∧ (∀ (L : List RevDict) (rd : RevDict) (rline : Line) (rest2 : List Line)
          (fld val : Line),
        GoodContentLine rline →
        splitOnce ':' rline = some (fld, val) →
        fieldOfName fld = none →
        runLines ⟨L, some rd, none, false⟩ (rline :: rest2)
          = Except.error (PollerError.invalidField fld))
    ∧ (∀ cs : List CommitRecord, (∀ c ∈ cs, WFCommit c) →
        parseLogResults ((cs.map renderCommit).flatten)
          = Except.ok (cs.map commitToRevDict)) := by
  refine ⟨?_, ?_, ?_⟩
  · simp [parseLogResults, runLines, parseLogLine, hgood.1]
  · intro L rd rline rest2 fld val hg hsplit hfield
    have hne : rline ≠ [] := by
      intro hcontra
      rw [hcontra] at hsplit
      simp [splitOnce] at hsplit
    simp [runLines, parseLogLine, hg.1, hg.2.1, hne, hsplit, hfield]
  · intro cs hwf
    exact parseLogResults_render cs hwf

/-- C9 witness: the theorem applied at a concrete stray line. -/
theorem c9_witness :
    parseLogResults ["bogus".data] = Except.error (PollerError.unknownLineOutsideCommit "bogus".data)
    ∧ (∀ (L : List RevDict) (rd : RevDict) (rline : Line) (rest2 : List Line)
          (fld val : Line),
        GoodContentLine rline →
        splitOnce ':' rline = some (fld, val) →
        fieldOfName fld = none →
        runLines ⟨L, some rd, none, false⟩ (rline :: rest2)
          = Except.error (PollerError.invalidField fld))
    ∧ (∀ cs : List CommitRecord, (∀ c ∈ cs, WFCommit c) →
        parseLogResults ((cs.map renderCommit).flatten)
          = Except.ok (cs.map commitToRevDict)) :=
  c9_parser_protocol_errors "bogus".data [] (by decide)

end ClaimTheorems

end Buildbot
